import Mathlib

/-!
Verification of the player-movement / collision subsystem and the
chapter-event store of the map-hack game repository.

The development shallowly embeds the relevant source functions:

* the fixed-step scheduler `useFixedFramerate.shouldUpdate`
  (clamped-modulo variant) over exact rationals;
* the zustand game store (`goToChapter`, `triggerEvent`, `addToCart`,
  `setActiveEffect`) with deferred timeouts modelled as explicit
  pending-timer data processed in time order;
* the `PlayerController` continuous and grid movement steps over the
  reals (JS `Math.exp` / `Math.sqrt` / trigonometry become `Real.exp`,
  `Real.sqrt`, `Real.sin`, `Real.cos`).

JS `%` on numbers (remainder with the dividend's sign) is modelled by
`jsmodQ` / `jsmodR` via truncation toward zero.
-/

namespace MapHack

/-! ## JS numeric remainder -/

/-- Truncation toward zero of a rational, as used by the JS `%` operator. -/
def jstruncQ (x : ℚ) : ℤ := if 0 ≤ x then ⌊x⌋ else ⌈x⌉

/-- JS remainder `a % b` over the rationals: `a - b * trunc (a / b)`. -/
def jsmodQ (a b : ℚ) : ℚ := a - b * (jstruncQ (a / b) : ℚ)

/-- Truncation toward zero of a real, as used by the JS `%` operator. -/
noncomputable def jstruncR (x : ℝ) : ℤ := if 0 ≤ x then ⌊x⌋ else ⌈x⌉

/-- JS remainder `a % b` over the reals: `a - b * trunc (a / b)`. -/
noncomputable def jsmodR (a b : ℝ) : ℝ := a - b * (jstruncR (a / b) : ℝ)

/-! ## Fixed-step scheduler (`useFixedFramerate`, clamped-modulo variant)

`shouldUpdate` takes the per-render-frame elapsed time `delta` and the
stored accumulator, clamps `delta` to 200 ms, accumulates, and fires one
simulation step (draining the accumulator by modulo) when the
accumulator reaches the step interval. -/

/-- The step interval `1 / fps` of the scheduler. -/
def interval (fps : ℚ) : ℚ := 1 / fps

/-- One call of the scheduler's `shouldUpdate`: returns whether a
simulation step fires, together with the new accumulator value. -/
def shouldUpdate (fps : ℚ) (delta : ℚ) (accumulated : ℚ) : Bool × ℚ :=
  let acc := accumulated + min delta (1 / 5)
  if interval fps ≤ acc then (true, jsmodQ acc (interval fps)) else (false, acc)

/-- Fold the scheduler over a whole sequence of per-frame elapsed
times, starting from accumulator `acc`, returning the final accumulator. -/
def runSchedulerAcc (fps : ℚ) (deltas : List ℚ) (acc : ℚ) : ℚ :=
  deltas.foldl (fun a d => (shouldUpdate fps d a).2) acc

/-! ## Game store (`useGameStore`, later variant) -/

/-- The chapter enumeration of the store. -/
inductive Chapter
  | START | INTRO | CH1 | CH2 | CH3 | CH4 | CH5 | END
  deriving DecidableEq, Repr

/-- The two store mutations that `goToChapter` defers via `setTimeout`. -/
inductive TransAction
  | setChapter (c : Chapter)
  | endTransition
  deriving DecidableEq, Repr

/-- The chapter-transition slice of the store state. -/
structure TransState where
  chapter : Chapter
  isTransitioning : Bool
  deriving DecidableEq, Repr

/-- Apply one deferred store mutation. -/
def applyTransAction (s : TransState) : TransAction → TransState
  | .setChapter c => { s with chapter := c }
  | .endTransition => { s with isTransitioning := false }

/-- The synchronous part of `goToChapter`: set `isTransitioning` at once. -/
def goToChapterNow (s : TransState) : TransState :=
  { s with isTransitioning := true }

/-- The timers scheduled by `goToChapter next`: swap the chapter after
400 ms and end the transition after 800 ms. -/
def goToChapterTimers (next : Chapter) : List (ℕ × TransAction) :=
  [(400, .setChapter next), (800, .endTransition)]

/-- Run all scheduled timers whose fire time is at most `t`, in schedule
order, over a start state. -/
def runTimers (s : TransState) (timers : List (ℕ × TransAction)) (t : ℕ) : TransState :=
  (timers.filter (fun p => p.1 ≤ t)).foldl (fun st p => applyTransAction st p.2) s

/-- Store state observed `t` milliseconds after calling `goToChapter b`
from chapter `a` outside a transition. -/
def transStateAt (a b : Chapter) (t : ℕ) : TransState :=
  runTimers (goToChapterNow ⟨a, false⟩) (goToChapterTimers b) t

/-- `triggerEvent id` on the visited-event set: reports whether this is
the first trigger of `id` and records it if so (the JS `Set` keeps
insertion order, modelled as an append). -/
def triggerEvent (id : String) (visitedEvents : List String) : Bool × List String :=
  if visitedEvents.contains id then (false, visitedEvents)
  else (true, visitedEvents ++ [id])

/-- `addToCart medicine`: append-only, silently ignored once the cart
holds 5 items. -/
def addToCart (medicine : String) (cartItems : List String) : List String :=
  if cartItems.length < 5 then cartItems ++ [medicine] else cartItems

/-- Add a whole sequence of items to the cart in order. -/
def addAllToCart (items : List String) (cartItems : List String) : List String :=
  items.foldl (fun c i => addToCart i c) cartItems

/-- The active-effect slice of the store: the current effect tag and the
fire time of the single pending auto-clear timeout, if any
(`effectTimeoutId` in the source). -/
structure EffState where
  activeEffect : Option String
  pendingClear : Option ℕ
  deriving DecidableEq, Repr

/-- JS truthiness of the `effect` argument (a string or `null`; the
empty string is falsy). -/
def effectTruthy : Option String → Bool
  | none => false
  | some e => !(e == "")

/-- JS truthiness of the optional `duration` argument (`0` is falsy). -/
def durationTruthy : Option ℕ → Bool
  | none => false
  | some d => decide (d ≠ 0)

/-- `setActiveEffect effect duration` called at absolute time `now`:
cancels any pending auto-clear timeout, installs the new effect, and
schedules a fresh auto-clear at `now + duration` when both arguments
are truthy. -/
def setActiveEffect (now : ℕ) (effect : Option String) (duration : Option ℕ)
    (_s : EffState) : EffState :=
  { activeEffect := effect
    pendingClear :=
      if effectTruthy effect && durationTruthy duration then
        (duration.map (fun d => now + d))
      else none }

/-- Let time advance to `t`: the pending auto-clear timeout fires (sets
the effect to `null` and forgets the timer) once its fire time passes. -/
def fireClearUpTo (t : ℕ) (s : EffState) : EffState :=
  match s.pendingClear with
  | some ft => if ft ≤ t then { activeEffect := none, pendingClear := none } else s
  | none => s

/-! ## Keyboard snapshot (`useKeyboard`)

The input source is a live set of currently-held key codes, modelled as
a list of code strings. -/

/-- Key code of the left arrow. -/
def codeArrowLeft : String := "ArrowLeft"

/-- Key code of the right arrow. -/
def codeArrowRight : String := "ArrowRight"

/-- Key code of the up arrow. -/
def codeArrowUp : String := "ArrowUp"

/-- Key code of the down arrow. -/
def codeArrowDown : String := "ArrowDown"

/-- Key code of the `A` key. -/
def codeKeyA : String := "KeyA"

/-- Key code of the `D` key. -/
def codeKeyD : String := "KeyD"

/-- Key code of the `W` key. -/
def codeKeyW : String := "KeyW"

/-- Key code of the `S` key. -/
def codeKeyS : String := "KeyS"

/-- Left intent: `ArrowLeft` or `KeyA` held. -/
def keyLeft (k : List String) : Bool := k.contains codeArrowLeft || k.contains codeKeyA

/-- Right intent: `ArrowRight` or `KeyD` held. -/
def keyRight (k : List String) : Bool := k.contains codeArrowRight || k.contains codeKeyD

/-- Forward intent: `ArrowUp` or `KeyW` held. -/
def keyUp (k : List String) : Bool := k.contains codeArrowUp || k.contains codeKeyW

/-- Backward intent: `ArrowDown` or `KeyS` held. -/
def keyDown (k : List String) : Bool := k.contains codeArrowDown || k.contains codeKeyS

/-! ## PlayerController constants -/

/-- Continuous-mode acceleration (world units / s²). -/
def ACCEL : ℝ := 18

/-- Continuous-mode friction coefficient (1 / s). -/
def FRICTION : ℝ := 6

/-- Continuous-mode speed cap (world units / s). -/
def MAX_SPEED : ℝ := 4

/-- Spatial quantisation increment of the final position (0.05). -/
noncomputable def SNAP_UNIT : ℝ := 1 / 20

/-- Half-width of the player's collision box (0.3). -/
noncomputable def PLAYER_HALF : ℝ := 3 / 10

/-- Grid-mode position interpolation rate. -/
def GRID_POS_LERP : ℝ := 10

/-- Grid-mode facing interpolation rate. -/
def GRID_FACING_LERP : ℝ := 12

/-- Grid-mode input cooldown, 0.22 s.  The cooldown bookkeeping is exact
rational arithmetic, so it is carried in `ℚ`. -/
def GRID_INPUT_COOLDOWN : ℚ := 11 / 50

/-- The fixed simulation step `1 / 24` s, as a rational (cooldown math). -/
def dtQ : ℚ := 1 / 24

/-- The fixed simulation step `1 / 24` s, as a real (kinematics). -/
noncomputable def dtR : ℝ := 1 / 24

/-! ## Collision geometry -/

/-- An axis-aligned rectangular wall obstacle. -/
structure WallAABB where
  minX : ℝ
  maxX : ℝ
  minZ : ℝ
  maxZ : ℝ

/-- Whether the player box centred at `(px, pz)` (half-width
`PLAYER_HALF`) overlaps any wall rectangle, with strict inequalities as
in the source. -/
def collidesWithWalls (px pz : ℝ) (walls : List WallAABB) : Prop :=
  ∃ w ∈ walls,
    w.minX < px + PLAYER_HALF ∧ px - PLAYER_HALF < w.maxX ∧
    w.minZ < pz + PLAYER_HALF ∧ pz - PLAYER_HALF < w.maxZ

/-- An optional clamping rectangle for the resolved position. -/
structure RectBounds where
  minX : ℝ
  maxX : ℝ
  minZ : ℝ
  maxZ : ℝ

/-- Clamp a position into the bounds rectangle, as
`Math.max(min, Math.min(max, v))` per axis. -/
noncomputable def clampToBounds (b : RectBounds) (x z : ℝ) : ℝ × ℝ :=
  (max b.minX (min b.maxX x), max b.minZ (min b.maxZ z))

/-- `snap v unit = Math.round(v / unit) * unit`; Mathlib's `round` is
`⌊x + 1/2⌋`, which agrees with JS `Math.round`. -/
noncomputable def snap (v unit : ℝ) : ℝ := (round (v / unit) : ℤ) * unit

/-- `THREE.Vector2.normalize`: divide by the length, or by 1 when the
length is zero (`this.divideScalar(this.length() || 1)`). -/
noncomputable def v2normalize (v : ℝ × ℝ) : ℝ × ℝ :=
  let len := Real.sqrt (v.1 ^ 2 + v.2 ^ 2)
  let d := if len = 0 then 1 else len
  (v.1 / d, v.2 / d)

/-- The movement basis computed at mount from `initialLookDir = (lx, lz)`:
`forward = normalize (lx, lz)` and `right = normalize (-lz, lx)`. -/
noncomputable def mkAxes (lx lz : ℝ) : (ℝ × ℝ) × (ℝ × ℝ) :=
  (v2normalize (lx, lz), v2normalize (-lz, lx))

/-! ## Continuous movement mode -/

section
open Classical

/-- Kinematic state of the continuous-mode controller: position and
horizontal velocity (`vz` is the source's `vel.y`). -/
structure ContState where
  x : ℝ
  z : ℝ
  vx : ℝ
  vz : ℝ

/-- One simulation step of the continuous movement mode: read intent,
accelerate or decay the velocity, cap the speed, resolve each axis
independently against the walls (zeroing the velocity on a rejected
axis; the Z test uses the already-resolved X position), quantise to the
snap grid, and clamp to the optional bounds. -/
noncomputable def contStep (collisionWalls : List WallAABB) (bounds : Option RectBounds)
    (fwd rgt : ℝ × ℝ) (k : List String) (s : ContState) : ContState :=
  let inputRight : ℝ := (if keyLeft k then -1 else 0) + (if keyRight k then 1 else 0)
  let inputForward : ℝ := (if keyUp k then 1 else 0) + (if keyDown k then -1 else 0)
  let moveX := inputRight * rgt.1 + inputForward * fwd.1
  let moveZ := inputRight * rgt.2 + inputForward * fwd.2
  let vx1 := if moveX ≠ 0 then s.vx + moveX * ACCEL * dtR else s.vx * Real.exp (-FRICTION * dtR)
  let vz1 := if moveZ ≠ 0 then s.vz + moveZ * ACCEL * dtR else s.vz * Real.exp (-FRICTION * dtR)
  let speed := Real.sqrt (vx1 ^ 2 + vz1 ^ 2)
  let vx2 := if MAX_SPEED < speed then vx1 * (MAX_SPEED / speed) else vx1
  let vz2 := if MAX_SPEED < speed then vz1 * (MAX_SPEED / speed) else vz1
  let newX := s.x + vx2 * dtR
  let newZ := s.z + vz2 * dtR
  let xres : ℝ × ℝ :=
    if collisionWalls ≠ [] then
      if collidesWithWalls newX s.z collisionWalls then (s.x, 0) else (newX, vx2)
    else (newX, vx2)
  let zres : ℝ × ℝ :=
    if collisionWalls ≠ [] then
      if collidesWithWalls xres.1 newZ collisionWalls then (s.z, 0) else (newZ, vz2)
    else (newZ, vz2)
  let x1 := snap xres.1 SNAP_UNIT
  let z1 := snap zres.1 SNAP_UNIT
  let pos2 := match bounds with
    | some b => clampToBounds b x1 z1
    | none => (x1, z1)
  { x := pos2.1, z := pos2.2, vx := xres.2, vz := zres.2 }

/-- The `addMovement` amounts the continuous step reports to the store
during chapter CH2 (left bias, right bias). -/
noncomputable def contTallyDelta (chapter : Chapter) (k : List String) : ℝ × ℝ :=
  let inputRight : ℝ := (if keyLeft k then -1 else 0) + (if keyRight k then 1 else 0)
  if chapter = Chapter.CH2 then
    ((if inputRight < 0 then |inputRight| * dtR else 0),
     (if 0 < inputRight then |inputRight| * dtR else 0))
  else (0, 0)

/-! ## Grid movement mode -/

/-- `shortestAngleDelta from to`: the wrapped angular difference in
`(-π, π]`, exactly as computed by the source through two JS `%`
operations. -/
noncomputable def shortestAngleDelta (a b : ℝ) : ℝ :=
  let d := jsmodR (jsmodR (b - a) (2 * Real.pi) + 2 * Real.pi) (2 * Real.pi)
  if Real.pi < d then d - 2 * Real.pi else d

/-- State of the grid-mode controller: smoothed and target position and
facing, the input cooldown, and the previous key snapshot used for
rising-edge detection. -/
structure GridState where
  curX : ℝ
  curZ : ℝ
  tgtX : ℝ
  tgtZ : ℝ
  curFacing : ℝ
  tgtFacing : ℝ
  cooldown : ℚ
  prevKeys : List String

/-- The four discrete grid-mode actions. -/
inductive GAction
  | turnLeft | turnRight | stepForward | stepBackward
  deriving DecidableEq, Repr

/-- The discrete target data a grid step commits: target facing, target
position and cooldown after input processing. -/
structure GridCommit where
  tgtFacing : ℝ
  tgtX : ℝ
  tgtZ : ℝ
  cooldown : ℚ

/-- One simulation step of the grid movement mode: decrement the
cooldown, process at most one rising-edge discrete input through the
source's `else if` chain, then smooth the displayed position and facing
toward the committed targets and clamp to the optional bounds. -/
noncomputable def gridStep (gridCellSize : ℝ) (collisionWalls : List WallAABB)
    (bounds : Option RectBounds) (k : List String) (s : GridState) : GridState :=
  let cd := max 0 (s.cooldown - dtQ)
  let c : GridCommit :=
    if cd ≤ 0 then
      if keyLeft k && !keyLeft s.prevKeys then
        ⟨s.tgtFacing - Real.pi / 2, s.tgtX, s.tgtZ, GRID_INPUT_COOLDOWN⟩
      else if keyRight k && !keyRight s.prevKeys then
        ⟨s.tgtFacing + Real.pi / 2, s.tgtX, s.tgtZ, GRID_INPUT_COOLDOWN⟩
      else if keyUp k && !keyUp s.prevKeys then
        let fx : ℝ := (round (Real.sin s.tgtFacing) : ℤ)
        let fz : ℝ := (round (Real.cos s.tgtFacing) : ℤ)
        let nx := s.tgtX + fx * gridCellSize
        let nz := s.tgtZ + fz * gridCellSize
        if collidesWithWalls nx nz collisionWalls then
          ⟨s.tgtFacing, s.tgtX, s.tgtZ, GRID_INPUT_COOLDOWN⟩
        else ⟨s.tgtFacing, nx, nz, GRID_INPUT_COOLDOWN⟩
      else if keyDown k && !keyDown s.prevKeys then
        let fx : ℝ := (round (Real.sin s.tgtFacing) : ℤ)
        let fz : ℝ := (round (Real.cos s.tgtFacing) : ℤ)
        let nx := s.tgtX - fx * gridCellSize
        let nz := s.tgtZ - fz * gridCellSize
        if collidesWithWalls nx nz collisionWalls then
          ⟨s.tgtFacing, s.tgtX, s.tgtZ, GRID_INPUT_COOLDOWN⟩
        else ⟨s.tgtFacing, nx, nz, GRID_INPUT_COOLDOWN⟩
      else ⟨s.tgtFacing, s.tgtX, s.tgtZ, cd⟩
    else ⟨s.tgtFacing, s.tgtX, s.tgtZ, cd⟩
  let lp := 1 - Real.exp (-GRID_POS_LERP * dtR)
  let cx := s.curX + (c.tgtX - s.curX) * lp
  let cz := s.curZ + (c.tgtZ - s.curZ) * lp
  let lf := 1 - Real.exp (-GRID_FACING_LERP * dtR)
  let cf := s.curFacing + shortestAngleDelta s.curFacing c.tgtFacing * lf
  let cpos := match bounds with
    | some b => clampToBounds b cx cz
    | none => (cx, cz)
  { curX := cpos.1, curZ := cpos.2, tgtX := c.tgtX, tgtZ := c.tgtZ,
    curFacing := cf, tgtFacing := c.tgtFacing, cooldown := c.cooldown, prevKeys := k }

/-- The discrete action the grid step's input chain selects, as a pure
function of the key snapshot, the previous snapshot and the stored
cooldown (mirroring the guard structure of `gridStep`). -/
def gridActionOf (k prev : List String) (cooldown : ℚ) : Option GAction :=
  if max 0 (cooldown - dtQ) ≤ 0 then
    if keyLeft k && !keyLeft prev then some .turnLeft
    else if keyRight k && !keyRight prev then some .turnRight
    else if keyUp k && !keyUp prev then some .stepForward
    else if keyDown k && !keyDown prev then some .stepBackward
    else none
  else none

/-- The actions selected along a trace of key snapshots, tracking only
the cooldown and previous-snapshot bookkeeping of the grid step. -/
def actionsScan : List (List String) → List String → ℚ → List (Option GAction)
  | [], _, _ => []
  | ks :: rest, prev, cd =>
    let a := gridActionOf ks prev cd
    a :: actionsScan rest ks (if a.isSome then GRID_INPUT_COOLDOWN else max 0 (cd - dtQ))

/-- The `addMovement` amounts a grid step reports to the store during
chapter CH2 (one unit per committed turn). -/
def gridTallyDelta (chapter : Chapter) (k prev : List String) (cooldown : ℚ) : ℚ × ℚ :=
  if chapter = Chapter.CH2 then
    match gridActionOf k prev cooldown with
    | some .turnLeft => (1, 0)
    | some .turnRight => (0, 1)
    | _ => (0, 0)
  else (0, 0)

/-- Run the grid step over a whole trace of key snapshots. -/
noncomputable def runGrid (gridCellSize : ℝ) (walls : List WallAABB)
    (bounds : Option RectBounds) (trace : List (List String)) (s : GridState) : GridState :=
  trace.foldl (fun st ks => gridStep gridCellSize walls bounds ks st) s

/-- The facing-smoothing update applied every grid step: shortest-arc
interpolation of the displayed facing toward the target facing. -/
noncomputable def faceLerp (target c : ℝ) : ℝ :=
  c + shortestAngleDelta c target * (1 - Real.exp (-GRID_FACING_LERP * dtR))

/-- Iterate the facing-smoothing update `n` times with a fixed target. -/
noncomputable def faceIter (target : ℝ) : ℕ → ℝ → ℝ
  | 0, c => c
  | n + 1, c => faceIter target n (faceLerp target c)

/-- Target-facing increment contributed by a committed action. -/
noncomputable def turnDelta : Option GAction → ℝ
  | some .turnLeft => -(Real.pi / 2)
  | some .turnRight => Real.pi / 2
  | _ => 0

end

/-! ## Sample data for concrete instantiations -/

/-- Key snapshot holding forward and right simultaneously. -/
def keysFwdRight : List String := [codeArrowUp, codeArrowRight]

/-- The continuous controller's start state at the origin, at rest. -/
noncomputable def contStart : ContState := ⟨0, 0, 0, 0⟩

/-- A wide wall ahead of a player who looks toward `-Z` (the default
look direction): it blocks motion in `-Z`. -/
noncomputable def wallAheadMinusZ : List WallAABB := [⟨-5, 5, -2, -31 / 100⟩]

/-- A wide wall ahead of a player who looks toward `+Z`: it blocks
motion in `+Z`. -/
noncomputable def wallAheadPlusZ : List WallAABB := [⟨-5, 5, 31 / 100, 2⟩]

/-- A sample one-shot event identifier. -/
def sampleEventId : String := "ch1_door"

/-- A second sample event identifier. -/
def sampleEventId2 : String := "ch3_phone"

/-- The effect tag of the first `setActiveEffect` call in the
supersession scenario. -/
def effectA : String := "A"

/-- The effect tag of the second `setActiveEffect` call in the
supersession scenario. -/
def effectB : String := "B"

/-- Seven sample medicine labels for the cart-cap scenario. -/
def sampleItems : List String := ["m1", "m2", "m3", "m4", "m5", "m6", "m7"]

/-- A grid-mode start state at the origin: facing `0`, cooldown
expired, no keys previously held. -/
def gridStart : GridState := ⟨0, 0, 0, 0, 0, 0, 0, []⟩

/-- A key snapshot pressing only the right arrow. -/
def pressRight : List String := [codeArrowRight]

/-- Four right-arrow presses, each separated by five empty snapshots so
that the input cooldown has expired again before the next press. -/
def turnTrace : List (List String) :=
  [pressRight, [], [], [], [], [],
   pressRight, [], [], [], [], [],
   pressRight, [], [], [], [], [],
   pressRight]

/-! ## Helper lemmas -/

/-- JS remainder by a positive divisor of a non-negative dividend lies
in `[0, b)`. -/
theorem jsmodQ_nonneg_lt {a b : ℚ} (hb : 0 < b) (ha : 0 ≤ a) :
    0 ≤ jsmodQ a b ∧ jsmodQ a b < b := by
  have hq : 0 ≤ a / b := div_nonneg ha hb.le
  unfold jsmodQ jstruncQ
  rw [if_pos hq]
  have hcancel : b * (a / b) = a := mul_div_cancel₀ a hb.ne'
  constructor
  · have h1 : (⌊a / b⌋ : ℚ) ≤ a / b := Int.floor_le _
    have h2 : b * (⌊a / b⌋ : ℚ) ≤ b * (a / b) := by
      exact mul_le_mul_of_nonneg_left h1 hb.le
    linarith
  · have h1 : a / b < (⌊a / b⌋ : ℚ) + 1 := Int.lt_floor_add_one _
    have h2 : b * (a / b) < b * ((⌊a / b⌋ : ℚ) + 1) := by
      exact mul_lt_mul_of_pos_left h1 hb
    nlinarith

/-- One scheduler call keeps the accumulator in `[0, interval)`. -/
theorem shouldUpdate_acc_mem (fps acc : ℚ) (d : ℚ) (hfps : 0 < fps)
    (h0 : 0 ≤ acc) (hd : 0 ≤ d) :
    0 ≤ (shouldUpdate fps d acc).2 ∧ (shouldUpdate fps d acc).2 < interval fps := by
  have hi : 0 < interval fps := by
    unfold interval
    positivity
  have hmin : 0 ≤ min d (1 / 5) := le_min hd (by norm_num)
  unfold shouldUpdate
  by_cases hfire : interval fps ≤ acc + min d (1 / 5)
  · rw [if_pos hfire]
    exact jsmodQ_nonneg_lt hi (by linarith)
  · rw [if_neg hfire]
    exact ⟨by simpa using by linarith, by simpa using lt_of_not_le hfire⟩

/-- Folding the scheduler preserves the accumulator window. -/
theorem runSchedulerAcc_mem {fps : ℚ} (deltas : List ℚ) (acc : ℚ) (hfps : 0 < fps)
    (h0 : 0 ≤ acc) (h1 : acc < interval fps) (hd : ∀ d ∈ deltas, 0 ≤ d) :
    0 ≤ runSchedulerAcc fps deltas acc ∧ runSchedulerAcc fps deltas acc < interval fps := by
  induction deltas generalizing acc with
  | nil => exact ⟨h0, h1⟩
  | cons d rest ih =>
    have hstep := shouldUpdate_acc_mem fps acc d hfps h0 (hd d (by simp))
    exact ih _ hstep.1 hstep.2 (fun x hx => hd x (by simp [hx]))

/-- The cart fold appends exactly the items that fit under the cap. -/
theorem addAllToCart_eq (items cart : List String) (h : cart.length ≤ 5) :
    addAllToCart items cart = cart ++ items.take (5 - cart.length) := by
  induction items generalizing cart with
  | nil => simp [addAllToCart]
  | cons i rest ih =>
    rcases lt_or_eq_of_le h with hlt | heq
    · have hstep : addToCart i cart = cart ++ [i] := by
        unfold addToCart
        rw [if_pos hlt]
      have hlen : (cart ++ [i]).length ≤ 5 := by
        simp
        omega
      have htake : 5 - cart.length = (5 - (cart ++ [i]).length) + 1 := by
        simp
        omega
      calc addAllToCart (i :: rest) cart = addAllToCart rest (cart ++ [i]) := by
            simp [addAllToCart, hstep]
        _ = (cart ++ [i]) ++ rest.take (5 - (cart ++ [i]).length) := ih _ hlen
        _ = cart ++ (i :: rest).take (5 - cart.length) := by
            rw [htake]
            simp [List.take_succ_cons]
    · have hstep : addToCart i cart = cart := by
        unfold addToCart
        rw [if_neg (by omega)]
      have : addAllToCart (i :: rest) cart = addAllToCart rest cart := by
        simp [addAllToCart, hstep]
      rw [this, ih cart h, ← heq]
      simp

/-! ## Claim theorems -/

/-- C1: calling `goToChapter b` while in chapter `a` leaves the chapter
equal to `a` until the 400 ms fade midpoint elapses and equal to `b`
from the midpoint on, while `isTransitioning` is true throughout the
0–800 ms window and false from 800 ms on. -/
theorem chapter_transition_framing (a b : Chapter) (t : ℕ) :
    (t < 400 → (transStateAt a b t).chapter = a) ∧
    (400 ≤ t → (transStateAt a b t).chapter = b) ∧
    (t < 800 → (transStateAt a b t).isTransitioning = true) ∧
    (800 ≤ t → (transStateAt a b t).isTransitioning = false) := by
  unfold transStateAt runTimers goToChapterTimers goToChapterNow
  refine ⟨?_, ?_, ?_, ?_⟩ <;> intro h
  · have h4 : ¬ 400 ≤ t := by omega
    have h8 : ¬ 800 ≤ t := by omega
    simp [h4, h8, applyTransAction]
  · by_cases h8 : 800 ≤ t <;> simp [h, h8, applyTransAction]
  · have h8 : ¬ 800 ≤ t := by omega
    by_cases h4 : 400 ≤ t <;> simp [h4, h8, applyTransAction]
  · have h4 : 400 ≤ t := by omega
    simp [h, h4, applyTransAction]

/-- Concrete instantiation of the transition-framing theorem for the
CH1 → CH2 transition at the boundary instants. -/
theorem chapter_transition_framing_witness :
    (transStateAt .CH1 .CH2 399).chapter = .CH1 ∧
    (transStateAt .CH1 .CH2 400).chapter = .CH2 ∧
    (transStateAt .CH1 .CH2 799).isTransitioning = true ∧
    (transStateAt .CH1 .CH2 800).isTransitioning = false :=
  ⟨(chapter_transition_framing .CH1 .CH2 399).1 (by decide),
   (chapter_transition_framing .CH1 .CH2 400).2.1 (by decide),
   (chapter_transition_framing .CH1 .CH2 799).2.2.1 (by decide),
   (chapter_transition_framing .CH1 .CH2 800).2.2.2 (by decide)⟩

/-- C2: one call of the clamped scheduler produces at most one step
signal even for an arbitrarily large elapsed time: the delta is clamped
to 200 ms before accumulation, the post-call accumulator is back inside
`[0, interval)` (so no catch-up burst is owed), an immediate follow-up
call with zero elapsed time fires nothing, and a 5-second hitch at the
24 Hz default fires exactly one step leaving accumulator `1/30`. -/
theorem scheduler_hitch_single_step (fps delta acc : ℚ) (hfps : 0 < fps)
    (h0 : 0 ≤ acc) (h1 : acc < interval fps) (hd : 0 ≤ delta) :
    ((if (shouldUpdate fps delta acc).1 then 1 else 0) ≤ 1) ∧
    0 ≤ (shouldUpdate fps delta acc).2 ∧
    (shouldUpdate fps delta acc).2 < interval fps ∧
    (shouldUpdate fps 0 (shouldUpdate fps delta acc).2).1 = false ∧
    shouldUpdate 24 5 0 = (true, 1 / 30) := by
  have hmem := shouldUpdate_acc_mem fps acc delta hfps h0 hd
  refine ⟨by split <;> norm_num, hmem.1, hmem.2, ?_, ?_⟩
  · obtain ⟨hA0, hA1⟩ := hmem
    set A := (shouldUpdate fps delta acc).2 with hA
    have hno : ¬ interval fps ≤ A + min 0 (1 / 5) := by
      have hm : min (0 : ℚ) (1 / 5) = 0 := by norm_num
      rw [hm, add_zero]
      exact not_le.mpr hA1
    simp only [shouldUpdate, hno, if_false, if_neg hno]
  · have hfloor : ⌊(1 / 5 : ℚ) / (1 / 24)⌋ = 4 := by
      norm_num
    have harg : (0 : ℚ) + min 5 (1 / 5) = 1 / 5 := by norm_num
    have hfire : interval 24 ≤ (0 : ℚ) + min 5 (1 / 5) := by
      rw [harg]
      norm_num [interval]
    simp only [shouldUpdate, harg, hfire, if_true, if_pos hfire]
    norm_num [jsmodQ, jstruncQ, interval, hfloor]

/-- Concrete instantiation of the scheduler-hitch theorem at the 24 Hz
default with a 5-second delta from a fresh accumulator. -/
theorem scheduler_hitch_single_step_witness :
    ((if (shouldUpdate 24 5 0).1 then 1 else 0) ≤ 1) ∧
    (shouldUpdate 24 0 (shouldUpdate 24 5 0).2).1 = false :=
  ⟨(scheduler_hitch_single_step 24 5 0 (by norm_num) (by norm_num)
      (by norm_num [interval]) (by norm_num)).1,
   (scheduler_hitch_single_step 24 5 0 (by norm_num) (by norm_num)
      (by norm_num [interval]) (by norm_num)).2.2.2.1⟩

/-- C9: starting from a fresh accumulator, after every scheduler call
over any sequence of non-negative elapsed times the accumulator
satisfies `0 ≤ accumulated < interval`, so no call ever owes more than
one pending step. -/
theorem scheduler_accumulator_invariant (fps : ℚ) (deltas : List ℚ) (hfps : 0 < fps)
    (hd : ∀ d ∈ deltas, 0 ≤ d) :
    0 ≤ runSchedulerAcc fps deltas 0 ∧ runSchedulerAcc fps deltas 0 < interval fps := by
  have hi : 0 < interval fps := by
    unfold interval
    positivity
  exact runSchedulerAcc_mem deltas 0 hfps le_rfl hi hd

/-- Concrete instantiation of the accumulator invariant at 24 Hz over a
short frame sequence including a 5-second hitch. -/
theorem scheduler_accumulator_invariant_witness :
    0 ≤ runSchedulerAcc 24 [1 / 100, 5, 0, 3 / 100] 0 ∧
    runSchedulerAcc 24 [1 / 100, 5, 0, 3 / 100] 0 < interval 24 :=
  scheduler_accumulator_invariant 24 [1 / 100, 5, 0, 3 / 100] (by norm_num)
    (by intro d hd; fin_cases hd <;> norm_num)

/-- C3: for an id not yet triggered, `triggerEvent` returns `true` then
`false` on two successive calls, the second call leaves the set
unchanged, the visited set contains the id exactly once afterwards, and
`triggerEvent` on an already-present id is a no-op. -/
theorem triggerEvent_idempotent (id : String) (v : List String)
    (h : v.contains id = false) :
    (triggerEvent id v).1 = true ∧
    (triggerEvent id (triggerEvent id v).2).1 = false ∧
    (triggerEvent id (triggerEvent id v).2).2 = (triggerEvent id v).2 ∧
    ((triggerEvent id v).2).count id = 1 ∧
    (∀ w : List String, w.contains id = true → triggerEvent id w = (false, w)) := by
  have hmem : id ∉ v := by simpa using h
  have hcount : v.count id = 0 := by
    rw [List.count_eq_zero]
    exact hmem
  refine ⟨?_, ?_, ?_, ?_, ?_⟩
  · simp [triggerEvent, hmem]
  · simp [triggerEvent, hmem]
  · simp [triggerEvent, hmem]
  · simp [triggerEvent, hmem, hcount]
  · intro w hw
    have : id ∈ w := by simpa using hw
    simp [triggerEvent, this]

/-- Concrete instantiation of trigger idempotence on a fresh store. -/
theorem triggerEvent_idempotent_witness :
    (triggerEvent sampleEventId [sampleEventId2]).1 = true ∧
    ((triggerEvent sampleEventId (triggerEvent sampleEventId [sampleEventId2]).2).1 = false) :=
  ⟨(triggerEvent_idempotent sampleEventId [sampleEventId2] (by decide)).1,
   (triggerEvent_idempotent sampleEventId [sampleEventId2] (by decide)).2.1⟩

/-- C5: from an empty cart, adding 7 items leaves exactly the first 5
in insertion order; the cart length never exceeds 5 under the fold, and
an add at or beyond the cap returns the cart entirely unchanged. -/
theorem addToCart_cap (items cart : List String) (item : String) :
    (items.length = 7 → addAllToCart items [] = items.take 5) ∧
    (cart.length ≤ 5 → (addAllToCart items cart).length ≤ 5) ∧
    (5 ≤ cart.length → addToCart item cart = cart) := by
  refine ⟨?_, ?_, ?_⟩
  · intro _
    simpa using addAllToCart_eq items [] (by simp)
  · intro h
    rw [addAllToCart_eq items cart h]
    simp
    omega
  · intro h
    unfold addToCart
    rw [if_neg (by omega)]

/-- Concrete instantiation of the cart cap with seven sample items. -/
theorem addToCart_cap_witness :
    addAllToCart sampleItems [] = sampleItems.take 5 ∧
    (addAllToCart sampleItems []).length ≤ 5 :=
  ⟨(addToCart_cap sampleItems [] sampleEventId).1 (by decide),
   (addToCart_cap sampleItems [] sampleEventId).2.1 (by decide)⟩

/-- C4: in the supersession scenario (`setActiveEffect A 1000` at time
0, then `setActiveEffect B 500` at time 100) effect `B` auto-clears at
600 ms and the first call's 1000 ms timer never fires, because every
`setActiveEffect` call cancels the pending auto-clear before scheduling
its own: any pending clear after a call was scheduled by that call. -/
theorem setActiveEffect_supersession (s : EffState) (now : ℕ)
    (e : Option String) (d : Option ℕ) (ft : ℕ) :
    (setActiveEffect 0 (some effectA) (some 1000) ⟨none, none⟩
      = ⟨some effectA, some 1000⟩) ∧
    (fireClearUpTo 100 ⟨some effectA, some 1000⟩ = ⟨some effectA, some 1000⟩) ∧
    (setActiveEffect 100 (some effectB) (some 500) ⟨some effectA, some 1000⟩
      = ⟨some effectB, some 600⟩) ∧
    (∀ t : ℕ, t < 600 → fireClearUpTo t ⟨some effectB, some 600⟩ = ⟨some effectB, some 600⟩) ∧
    (∀ t : ℕ, 600 ≤ t → fireClearUpTo t ⟨some effectB, some 600⟩ = ⟨none, none⟩) ∧
    (fireClearUpTo 1000 ⟨none, none⟩ = ⟨none, none⟩) ∧
    ((setActiveEffect now e d s).activeEffect = e) ∧
    ((setActiveEffect now e d s).pendingClear = some ft →
      ∃ d0, d = some d0 ∧ 0 < d0 ∧ ft = now + d0) := by
  refine ⟨by decide, by decide, by decide, ?_, ?_, by decide, rfl, ?_⟩
  · intro t ht
    simp [fireClearUpTo, Nat.not_le.mpr ht]
  · intro t ht
    simp [fireClearUpTo, ht]
  · intro hp
    unfold setActiveEffect at hp
    simp only at hp
    by_cases htr : effectTruthy e && durationTruthy d
    · rw [if_pos htr] at hp
      rcases d with _ | d0
      · simp at hp
      · have hd0 : d0 ≠ 0 := by
          rcases Bool.and_eq_true_iff.mp htr with ⟨_, hdur⟩
          simpa [durationTruthy] using hdur
        refine ⟨d0, rfl, Nat.pos_of_ne_zero hd0, ?_⟩
        simp at hp
        omega
    · rw [if_neg htr] at hp
      simp at hp

/-- Concrete instantiation of effect-timer supersession: fire-time
characterisation of a concrete call, plus the 600 ms clear. -/
theorem setActiveEffect_supersession_witness :
    (∃ d0, (some 500 : Option ℕ) = some d0 ∧ 0 < d0 ∧ 600 = 100 + d0) ∧
    fireClearUpTo 600 ⟨some effectB, some 600⟩ = ⟨none, none⟩ :=
  ⟨(setActiveEffect_supersession ⟨some effectA, some 1000⟩ 100
      (some effectB) (some 500) 600).2.2.2.2.2.2.2 (by decide),
   (setActiveEffect_supersession ⟨some effectA, some 1000⟩ 100
      (some effectB) (some 500) 600).2.2.2.2.1 600 le_rfl⟩

/-- C6 (amended): in continuous mode with the default look direction
(forward `-Z`, right `+X`) and a single obstacle rectangle directly
ahead blocking motion in `-Z`, a diagonal forward-right input advances
the position in `+X` in one simulation step while the Z coordinate is
unchanged and the Z velocity component is zeroed: the X-axis attempt is
accepted and the Z-axis attempt rejected, each on its own. -/
theorem axis_slide_resolution :
    contStep wallAheadMinusZ none (mkAxes 0 (-1)).1 (mkAxes 0 (-1)).2 keysFwdRight contStart
      = ⟨1 / 20, 0, 3 / 4, 0⟩ ∧
    contStart.x <
      (contStep wallAheadMinusZ none (mkAxes 0 (-1)).1 (mkAxes 0 (-1)).2 keysFwdRight contStart).x ∧
    (contStep wallAheadMinusZ none (mkAxes 0 (-1)).1 (mkAxes 0 (-1)).2 keysFwdRight contStart).z
      = contStart.z ∧
    (contStep wallAheadMinusZ none (mkAxes 0 (-1)).1 (mkAxes 0 (-1)).2 keysFwdRight contStart).vz
      = 0 := by
  have haxes : (mkAxes 0 (-1) : (ℝ × ℝ) × (ℝ × ℝ)) = ((0, -1), (1, 0)) := by
    unfold mkAxes v2normalize
    norm_num
  have hl : keyLeft keysFwdRight = false := by decide
  have hr : keyRight keysFwdRight = true := by decide
  have hu : keyUp keysFwdRight = true := by decide
  have hd : keyDown keysFwdRight = false := by decide
  have h9 : Real.sqrt 9 = 3 := by
    rw [show (9 : ℝ) = 3 ^ 2 by norm_num, Real.sqrt_sq (by norm_num)]
  have h8 : (2 : ℝ) ≤ Real.sqrt 8 := by
    rw [show (2 : ℝ) = Real.sqrt 4 by
      rw [show (4 : ℝ) = 2 ^ 2 by norm_num, Real.sqrt_sq (by norm_num)]]
    exact Real.sqrt_le_sqrt (by norm_num)
  have hs : ¬ (4 : ℝ) < Real.sqrt 9 / Real.sqrt 8 := by
    have hle : Real.sqrt 9 / Real.sqrt 8 ≤ 3 / 2 := by
      rw [h9]
      gcongr
    linarith
  have hmain : contStep wallAheadMinusZ none
      (mkAxes 0 (-1)).1 (mkAxes 0 (-1)).2 keysFwdRight contStart = ⟨1 / 20, 0, 3 / 4, 0⟩ := by
    rw [haxes]
    simp only [contStep]
    simp [hl, hr, hu, hd, contStart, wallAheadMinusZ, dtR, ACCEL, FRICTION, MAX_SPEED, SNAP_UNIT]
    norm_num [hs, round_eq, collidesWithWalls, PLAYER_HALF, snap]
  refine ⟨hmain, ?_, ?_, ?_⟩ <;> rw [hmain] <;> norm_num [contStart]

/-- C6 counterexample: to have the obstacle directly ahead blocking
motion in `+Z` the look direction must be `+Z`, but then the code's
right basis vector is `-X`, and a diagonal forward-right input makes
the X coordinate strictly decrease in the step — the claimed advance
in `+X` fails. -/
theorem axis_slide_plusZ_counterexample :
    contStep wallAheadPlusZ none (mkAxes 0 1).1 (mkAxes 0 1).2 keysFwdRight contStart
      = ⟨-(1 / 20), 0, -(3 / 4), 0⟩ ∧
    (contStep wallAheadPlusZ none (mkAxes 0 1).1 (mkAxes 0 1).2 keysFwdRight contStart).x
      < contStart.x := by
  have haxes : (mkAxes 0 1 : (ℝ × ℝ) × (ℝ × ℝ)) = ((0, 1), (-1, 0)) := by
    unfold mkAxes v2normalize
    norm_num
  have hl : keyLeft keysFwdRight = false := by decide
  have hr : keyRight keysFwdRight = true := by decide
  have hu : keyUp keysFwdRight = true := by decide
  have hd : keyDown keysFwdRight = false := by decide
  have h9 : Real.sqrt 9 = 3 := by
    rw [show (9 : ℝ) = 3 ^ 2 by norm_num, Real.sqrt_sq (by norm_num)]
  have h8 : (2 : ℝ) ≤ Real.sqrt 8 := by
    rw [show (2 : ℝ) = Real.sqrt 4 by
      rw [show (4 : ℝ) = 2 ^ 2 by norm_num, Real.sqrt_sq (by norm_num)]]
    exact Real.sqrt_le_sqrt (by norm_num)
  have hs : ¬ (4 : ℝ) < Real.sqrt 9 / Real.sqrt 8 := by
    have hle : Real.sqrt 9 / Real.sqrt 8 ≤ 3 / 2 := by
      rw [h9]
      gcongr
    linarith
  have hmain : contStep wallAheadPlusZ none
      (mkAxes 0 1).1 (mkAxes 0 1).2 keysFwdRight contStart = ⟨-(1 / 20), 0, -(3 / 4), 0⟩ := by
    rw [haxes]
    simp only [contStep]
    simp [hl, hr, hu, hd, contStart, wallAheadPlusZ, dtR, ACCEL, FRICTION, MAX_SPEED, SNAP_UNIT]
    norm_num [hs, round_eq, collidesWithWalls, PLAYER_HALF, snap]
  refine ⟨hmain, ?_⟩
  rw [hmain]
  norm_num [contStart]


/-- Sine and cosine at integer multiples of a quarter turn. -/
theorem sin_cos_quarter (m : ℤ) :
    Real.sin ((m : ℝ) * (Real.pi / 2)) =
      (if m % 4 = 0 then 0 else if m % 4 = 1 then 1 else if m % 4 = 2 then 0 else -1) ∧
    Real.cos ((m : ℝ) * (Real.pi / 2)) =
      (if m % 4 = 0 then 1 else if m % 4 = 1 then 0 else if m % 4 = 2 then -1 else 0) := by
  have hsplit : (m : ℝ) * (Real.pi / 2)
      = ((m % 4 : ℤ) : ℝ) * (Real.pi / 2) + (m / 4 : ℤ) * (2 * Real.pi) := by
    have hm : (4 * (m / 4) + m % 4 : ℤ) = m := Int.ediv_add_emod m 4
    have hmR : ((m : ℝ)) = 4 * ((m / 4 : ℤ) : ℝ) + ((m % 4 : ℤ) : ℝ) := by
      have hc := congrArg (fun z : ℤ => (z : ℝ)) hm
      push_cast at hc
      linarith
    rw [hmR]
    ring
  rw [hsplit, Real.sin_add_int_mul_two_pi, Real.cos_add_int_mul_two_pi]
  have hr : m % 4 = 0 ∨ m % 4 = 1 ∨ m % 4 = 2 ∨ m % 4 = 3 := by omega
  rcases hr with h | h | h | h <;> rw [h] <;> norm_num
  · constructor
    · rw [show (2 : ℝ) * (Real.pi / 2) = Real.pi by ring]
      exact Real.sin_pi
    · rw [show (2 : ℝ) * (Real.pi / 2) = Real.pi by ring]
      exact Real.cos_pi
  · constructor
    · rw [show (3 : ℝ) * (Real.pi / 2) = Real.pi + Real.pi / 2 by ring]
      simp [Real.sin_add]
    · rw [show (3 : ℝ) * (Real.pi / 2) = Real.pi + Real.pi / 2 by ring]
      simp [Real.cos_add]

/-- The grid step stores the current key snapshot as the next previous
snapshot. -/
theorem gridStep_prevKeys (cell : ℝ) (walls : List WallAABB) (b : Option RectBounds)
    (k : List String) (s : GridState) : (gridStep cell walls b k s).prevKeys = k := by
  simp [gridStep]

/-- The grid step's cooldown bookkeeping matches the selected action:
restarted on a commit, decremented otherwise. -/
theorem gridStep_cooldown (cell : ℝ) (walls : List WallAABB) (b : Option RectBounds)
    (k : List String) (s : GridState) :
    (gridStep cell walls b k s).cooldown =
      if (gridActionOf k s.prevKeys s.cooldown).isSome then GRID_INPUT_COOLDOWN
      else max 0 (s.cooldown - dtQ) := by
  simp only [gridStep, gridActionOf]
  split_ifs <;> simp_all

/-- The grid step changes the target facing exactly by the turn amount
of the selected action. -/
theorem gridStep_tgtFacing (cell : ℝ) (walls : List WallAABB) (b : Option RectBounds)
    (k : List String) (s : GridState) :
    (gridStep cell walls b k s).tgtFacing =
      s.tgtFacing + turnDelta (gridActionOf k s.prevKeys s.cooldown) := by
  simp only [gridStep, gridActionOf]
  split_ifs <;> simp_all [turnDelta] <;> ring


/-- C8: in grid mode, a forward or backward rising-edge input moves the
target position by exactly one cell along (respectively opposite) the
current target facing — for the axis-aligned facings the mode
maintains, the rounded direction equals the exact unit direction —
leaves the target facing unchanged, and is rejected outright — target
position entirely unchanged, no partial slide — when the destination
overlaps a collision rectangle. -/
theorem grid_move_one_cell (cell : ℝ) (walls : List WallAABB) (b : Option RectBounds)
    (k : List String) (s : GridState) (m : ℤ)
    (hready : max 0 (s.cooldown - dtQ) ≤ 0)
    (hlE : (keyLeft k && !keyLeft s.prevKeys) = false)
    (hrE : (keyRight k && !keyRight s.prevKeys) = false)
    (hface : s.tgtFacing = (m : ℝ) * (Real.pi / 2)) :
    ((round (Real.sin s.tgtFacing) : ℤ) : ℝ) = Real.sin s.tgtFacing ∧
    ((round (Real.cos s.tgtFacing) : ℤ) : ℝ) = Real.cos s.tgtFacing ∧
    Real.sin s.tgtFacing ^ 2 + Real.cos s.tgtFacing ^ 2 = 1 ∧
    ((keyUp k && !keyUp s.prevKeys) = true →
      (gridStep cell walls b k s).tgtFacing = s.tgtFacing ∧
      (¬ collidesWithWalls (s.tgtX + Real.sin s.tgtFacing * cell)
          (s.tgtZ + Real.cos s.tgtFacing * cell) walls →
        ((gridStep cell walls b k s).tgtX, (gridStep cell walls b k s).tgtZ)
          = (s.tgtX + Real.sin s.tgtFacing * cell, s.tgtZ + Real.cos s.tgtFacing * cell)) ∧
      (collidesWithWalls (s.tgtX + Real.sin s.tgtFacing * cell)
          (s.tgtZ + Real.cos s.tgtFacing * cell) walls →
        ((gridStep cell walls b k s).tgtX, (gridStep cell walls b k s).tgtZ)
          = (s.tgtX, s.tgtZ))) ∧
    ((keyUp k && !keyUp s.prevKeys) = false →
      (keyDown k && !keyDown s.prevKeys) = true →
      (gridStep cell walls b k s).tgtFacing = s.tgtFacing ∧
      (¬ collidesWithWalls (s.tgtX - Real.sin s.tgtFacing * cell)
          (s.tgtZ - Real.cos s.tgtFacing * cell) walls →
        ((gridStep cell walls b k s).tgtX, (gridStep cell walls b k s).tgtZ)
          = (s.tgtX - Real.sin s.tgtFacing * cell, s.tgtZ - Real.cos s.tgtFacing * cell)) ∧
      (collidesWithWalls (s.tgtX - Real.sin s.tgtFacing * cell)
          (s.tgtZ - Real.cos s.tgtFacing * cell) walls →
        ((gridStep cell walls b k s).tgtX, (gridStep cell walls b k s).tgtZ)
          = (s.tgtX, s.tgtZ))) := by
  obtain ⟨hsv, hcv⟩ := sin_cos_quarter m
  rw [← hface] at hsv hcv
  have hsround : ((round (Real.sin s.tgtFacing) : ℤ) : ℝ) = Real.sin s.tgtFacing := by
    rw [hsv]
    split_ifs <;> norm_num [round_eq]
  have hcround : ((round (Real.cos s.tgtFacing) : ℤ) : ℝ) = Real.cos s.tgtFacing := by
    rw [hcv]
    split_ifs <;> norm_num [round_eq]
  refine ⟨hsround, hcround, Real.sin_sq_add_cos_sq _, ?_, ?_⟩
  · intro hfE
    refine ⟨?_, ?_, ?_⟩
    · simp only [gridStep]
      simp [hready, hlE, hrE, hfE]
      split_ifs <;> rfl
    · intro h
      simp only [gridStep]
      simp [hready, hlE, hrE, hfE, hsround, hcround, h]
    · intro h
      simp only [gridStep]
      simp [hready, hlE, hrE, hfE, hsround, hcround, h]
  · intro hfE hbE
    refine ⟨?_, ?_, ?_⟩
    · simp only [gridStep]
      simp [hready, hlE, hrE, hfE, hbE]
      split_ifs <;> rfl
    · intro h
      simp only [gridStep]
      simp [hready, hlE, hrE, hfE, hbE, hsround, hcround, h]
    · intro h
      simp only [gridStep]
      simp [hready, hlE, hrE, hfE, hbE, hsround, hcround, h]

/-- Concrete instantiation of the one-cell grid move: a forward press
from the start state with no walls moves the target one cell along the
facing, and a backward press moves it one cell opposite the facing. -/
theorem grid_move_one_cell_witness :
    ((gridStep 1 [] none [codeArrowUp] gridStart).tgtX,
      (gridStep 1 [] none [codeArrowUp] gridStart).tgtZ)
      = (gridStart.tgtX + Real.sin gridStart.tgtFacing * 1,
         gridStart.tgtZ + Real.cos gridStart.tgtFacing * 1) ∧
    ((gridStep 1 [] none [codeArrowDown] gridStart).tgtX,
      (gridStep 1 [] none [codeArrowDown] gridStart).tgtZ)
      = (gridStart.tgtX - Real.sin gridStart.tgtFacing * 1,
         gridStart.tgtZ - Real.cos gridStart.tgtFacing * 1) :=
  ⟨((grid_move_one_cell 1 [] none [codeArrowUp] gridStart 0
      (by norm_num [gridStart, dtQ])
      (by decide) (by decide)
      (by norm_num [gridStart])).2.2.2.1
      (by decide)).2.1
      (by simp [collidesWithWalls]),
   ((grid_move_one_cell 1 [] none [codeArrowDown] gridStart 0
      (by norm_num [gridStart, dtQ])
      (by decide) (by decide)
      (by norm_num [gridStart])).2.2.2.2
      (by decide) (by decide)).2.1
      (by simp [collidesWithWalls])⟩

/-- For a non-negative dividend, the JS real remainder is the scaled
fractional part. -/
theorem jsmodR_nonneg {a b : ℝ} (hb : 0 < b) (ha : 0 ≤ a) :
    jsmodR a b = b * Int.fract (a / b) := by
  have hq : 0 ≤ a / b := div_nonneg ha hb.le
  have hcancel : b * (a / b) = a := mul_div_cancel₀ a hb.ne'
  unfold jsmodR jstruncR
  rw [if_pos hq, Int.fract, mul_sub, hcancel]

/-- The source's double-remainder normalisation equals the scaled
fractional part of the angle over the period, for every real input. -/
theorem jsmodR_norm {x p : ℝ} (hp : 0 < p) :
    jsmodR (jsmodR x p + p) p = p * Int.fract (x / p) := by
  by_cases hx : 0 ≤ x
  · rw [jsmodR_nonneg hp hx]
    have hf0 : (0 : ℝ) ≤ Int.fract (x / p) := Int.fract_nonneg _
    have hsum : 0 ≤ p * Int.fract (x / p) + p := by positivity
    rw [jsmodR_nonneg hp hsum]
    have harg : (p * Int.fract (x / p) + p) / p = Int.fract (x / p) + 1 := by
      field_simp
      ring
    rw [harg, Int.fract_add_one, Int.fract_fract]
  · push_neg at hx
    have hq : x / p < 0 := div_neg_of_neg_of_pos hx hp
    have hy : jsmodR x p = -(p * Int.fract (-(x / p))) := by
      unfold jsmodR jstruncR
      rw [if_neg (not_le.mpr hq)]
      have hceil : ((⌈x / p⌉ : ℤ) : ℝ) = -((⌊-(x / p)⌋ : ℤ) : ℝ) := by
        rw [show ⌈x / p⌉ = -⌊-(x / p)⌋ by rw [Int.floor_neg]; ring]
        push_cast
        ring
      rw [hceil, Int.fract]
      have hpx : p * (x / p) = x := mul_div_cancel₀ x hp.ne'
      linear_combination -hpx
    rw [hy]
    set g := Int.fract (-(x / p)) with hg
    have hg0 : (0 : ℝ) ≤ g := Int.fract_nonneg _
    have hg1 : g < 1 := Int.fract_lt_one _
    have hsum : -(p * g) + p = p * (1 - g) := by ring
    have hpos : 0 ≤ -(p * g) + p := by nlinarith
    rw [jsmodR_nonneg hp hpos]
    have harg : (-(p * g) + p) / p = 1 - g := by
      field_simp
      ring
    rw [harg]
    by_cases hgz : g = 0
    · have hgz2 : Int.fract (-(x / p)) = 0 := by
        rw [← hg]
        exact hgz
      have hxz : Int.fract (x / p) = 0 := Int.fract_neg_eq_zero.mp hgz2
      rw [hgz, hxz]
      norm_num
    · have hfr : Int.fract (1 - g) = 1 - g := by
        rw [Int.fract_eq_self]
        constructor
        · linarith [lt_of_le_of_ne hg0 (Ne.symm hgz)]
        · linarith [lt_of_le_of_ne hg0 (Ne.symm hgz)]
      have hneg : Int.fract (x / p) = 1 - g := by
        have hxp : x / p = -(-(x / p)) := by ring
        rw [hxp, Int.fract_neg]
        rw [← hg]
        exact hgz
      rw [hfr, hneg]

/-- The source's shortest-arc delta lies in `(-π, π]` and differs from
the raw angular difference by an integer number of full turns. -/
theorem shortestAngleDelta_spec (a b : ℝ) :
    (-Real.pi < shortestAngleDelta a b ∧ shortestAngleDelta a b ≤ Real.pi) ∧
    ∃ k : ℤ, b - a - shortestAngleDelta a b = k * (2 * Real.pi) := by
  have hpi := Real.pi_pos
  have hp : (0 : ℝ) < 2 * Real.pi := by linarith
  unfold shortestAngleDelta
  rw [jsmodR_norm hp]
  dsimp only
  set f := Int.fract ((b - a) / (2 * Real.pi)) with hf
  have hf0 : 0 ≤ f := Int.fract_nonneg _
  have hf1 : f < 1 := Int.fract_lt_one _
  have hbam : b - a = 2 * Real.pi * ((⌊(b - a) / (2 * Real.pi)⌋ : ℝ) + f) := by
    rw [hf, Int.fract]
    have hc : 2 * Real.pi * ((b - a) / (2 * Real.pi)) = b - a :=
      mul_div_cancel₀ _ hp.ne'
    linear_combination -hc
  constructor
  · split_ifs with h
    · constructor
      · linarith
      · nlinarith
    · constructor
      · nlinarith
      · linarith
  · split_ifs with h
    · refine ⟨⌊(b - a) / (2 * Real.pi)⌋ + 1, ?_⟩
      push_cast
      linear_combination hbam
    · refine ⟨⌊(b - a) / (2 * Real.pi)⌋, ?_⟩
      push_cast
      linear_combination hbam

/-- The shortest-arc delta is the unique representative of the angular
difference inside `(-π, π]`. -/
theorem shortestAngleDelta_unique (a b v : ℝ) (h1 : -Real.pi < v) (h2 : v ≤ Real.pi)
    (h3 : ∃ k : ℤ, b - a - v = k * (2 * Real.pi)) : shortestAngleDelta a b = v := by
  have hpi := Real.pi_pos
  obtain ⟨⟨hb1, hb2⟩, k1, hk1⟩ := shortestAngleDelta_spec a b
  obtain ⟨k2, hk2⟩ := h3
  have hdiff : v - shortestAngleDelta a b = ((k1 - k2 : ℤ) : ℝ) * (2 * Real.pi) := by
    push_cast
    linear_combination hk1 - hk2
  have hlt : ((k1 - k2 : ℤ) : ℝ) * (2 * Real.pi) < 2 * Real.pi := by
    rw [← hdiff]
    linarith
  have hgt : -(2 * Real.pi) < ((k1 - k2 : ℤ) : ℝ) * (2 * Real.pi) := by
    rw [← hdiff]
    linarith
  have hz : k1 - k2 = 0 := by
    have h1r : ((k1 - k2 : ℤ) : ℝ) < 1 := by
      nlinarith
    have h2r : (-1 : ℝ) < ((k1 - k2 : ℤ) : ℝ) := by
      nlinarith
    have h1i : (k1 - k2 : ℤ) < 1 := by
      exact_mod_cast h1r
    have h2i : (-1 : ℤ) < k1 - k2 := by
      exact_mod_cast h2r
    omega
  rw [hz] at hdiff
  push_cast at hdiff
  linarith

/-- One facing-smoothing step scales the shortest-arc delta to the
target by the factor `exp (-1/2)`. -/
theorem faceLerp_sad (t c : ℝ) :
    shortestAngleDelta (faceLerp t c) t
      = Real.exp (-(1 / 2) : ℝ) * shortestAngleDelta c t := by
  have hpi := Real.pi_pos
  obtain ⟨⟨hd1, hd2⟩, k, hk⟩ := shortestAngleDelta_spec c t
  set d := shortestAngleDelta c t with hd
  set r := Real.exp (-(1 / 2) : ℝ) with hr
  have hr0 : 0 < r := Real.exp_pos _
  have hr1 : r < 1 := Real.exp_lt_one_iff.mpr (by norm_num)
  have hlf : faceLerp t c = c + d * (1 - r) := by
    unfold faceLerp
    rw [show -GRID_FACING_LERP * dtR = (-(1 / 2) : ℝ) by
      norm_num [GRID_FACING_LERP, dtR]]
  apply shortestAngleDelta_unique
  · rcases le_or_lt 0 d with hcase | hcase
    · nlinarith
    · nlinarith
  · rcases le_or_lt 0 d with hcase | hcase
    · nlinarith
    · nlinarith
  · refine ⟨k, ?_⟩
    rw [hlf]
    linear_combination hk

/-- After `n` facing-smoothing steps the shortest-arc delta to the
target has decayed geometrically. -/
theorem faceIter_sad (t c : ℝ) (n : ℕ) :
    shortestAngleDelta (faceIter t n c) t
      = Real.exp (-(1 / 2) : ℝ) ^ n * shortestAngleDelta c t := by
  induction n generalizing c with
  | zero => simp [faceIter]
  | succ n ih =>
    have hstep : faceIter t (n + 1) c = faceIter t n (faceLerp t c) := rfl
    rw [hstep, ih (faceLerp t c), faceLerp_sad]
    ring

/-- The smoothed facing never moves further from its start than the
initial shortest-arc delta: no overshoot or wrap-around. -/
theorem faceIter_no_overshoot (t c : ℝ) (n : ℕ) :
    |faceIter t n c - c|
      ≤ |shortestAngleDelta c t| * (1 - Real.exp (-(1 / 2) : ℝ) ^ n) := by
  induction n generalizing c with
  | zero => simp [faceIter]
  | succ n ih =>
    set r := Real.exp (-(1 / 2) : ℝ) with hr
    have hr0 : 0 < r := Real.exp_pos _
    have hr1 : r < 1 := Real.exp_lt_one_iff.mpr (by norm_num)
    have hrn0 : 0 ≤ r ^ n := pow_nonneg hr0.le n
    have hrn1 : r ^ n ≤ 1 := pow_le_one₀ hr0.le hr1.le
    set d := shortestAngleDelta c t with hd
    have hlf : faceLerp t c = c + d * (1 - r) := by
      unfold faceLerp
      rw [show -GRID_FACING_LERP * dtR = (-(1 / 2) : ℝ) by
        norm_num [GRID_FACING_LERP, dtR]]
    have hstep : faceIter t (n + 1) c = faceIter t n (faceLerp t c) := rfl
    have htri : |faceIter t (n + 1) c - c|
        ≤ |faceIter t n (faceLerp t c) - faceLerp t c| + |faceLerp t c - c| := by
      rw [hstep]
      exact abs_sub_le _ _ _
    have hmove : |faceLerp t c - c| = |d| * (1 - r) := by
      rw [hlf]
      rw [show c + d * (1 - r) - c = d * (1 - r) by ring, abs_mul,
        abs_of_nonneg (by linarith : (0 : ℝ) ≤ 1 - r)]
    have hsadlf : |shortestAngleDelta (faceLerp t c) t| = r * |d| := by
      rw [faceLerp_sad, abs_mul, abs_of_pos hr0]
    have hih := ih (faceLerp t c)
    rw [hsadlf] at hih
    have hpow : r ^ (n + 1) = r * r ^ n := by
      rw [pow_succ]
      ring
    have habs : 0 ≤ |d| := abs_nonneg _
    calc |faceIter t (n + 1) c - c|
        ≤ r * |d| * (1 - r ^ n) + |d| * (1 - r) := by linarith
      _ = |d| * (1 - r ^ (n + 1)) := by
          rw [hpow]
          ring

/-- The shortest-arc delta to the target tends to zero under repeated
facing smoothing. -/
theorem faceIter_tendsto (t c : ℝ) :
    Filter.Tendsto (fun n => shortestAngleDelta (faceIter t n c) t)
      Filter.atTop (nhds 0) := by
  have hr0 : (0 : ℝ) ≤ Real.exp (-(1 / 2) : ℝ) := (Real.exp_pos _).le
  have hr1 : Real.exp (-(1 / 2) : ℝ) < 1 := Real.exp_lt_one_iff.mpr (by norm_num)
  have hpow := tendsto_pow_atTop_nhds_zero_of_lt_one hr0 hr1
  have hmul := hpow.mul_const (shortestAngleDelta c t)
  rw [zero_mul] at hmul
  refine Filter.Tendsto.congr ?_ hmul
  intro n
  rw [faceIter_sad]

/-- With no keys held, a grid step commits nothing: the target facing
is unchanged and the displayed facing performs exactly one
shortest-arc smoothing step toward it. -/
theorem gridStep_noKeys (cell : ℝ) (walls : List WallAABB) (b : Option RectBounds)
    (s : GridState) :
    (gridStep cell walls b [] s).curFacing = faceLerp s.tgtFacing s.curFacing ∧
    (gridStep cell walls b [] s).tgtFacing = s.tgtFacing := by
  constructor
  · simp only [gridStep, faceLerp]
    simp [keyLeft, keyRight, keyUp, keyDown, codeArrowLeft, codeArrowRight,
      codeArrowUp, codeArrowDown, codeKeyA, codeKeyD, codeKeyW, codeKeyS]
  · simp only [gridStep]
    simp [keyLeft, keyRight, keyUp, keyDown, codeArrowLeft, codeArrowRight,
      codeArrowUp, codeArrowDown, codeKeyA, codeKeyD, codeKeyW, codeKeyS]

/-- Along any key trace whose committed actions are exactly `n` right
turns, the final target facing has advanced by `n` quarter turns. -/
theorem runGrid_tgtFacing_replicate (cell : ℝ) (walls : List WallAABB)
    (b : Option RectBounds) (trace : List (List String)) (s : GridState) (n : ℕ)
    (h : (actionsScan trace s.prevKeys s.cooldown).filterMap id
      = List.replicate n GAction.turnRight) :
    (runGrid cell walls b trace s).tgtFacing
      = s.tgtFacing + n * (Real.pi / 2) := by
  induction trace generalizing s n with
  | nil =>
    simp [actionsScan] at h
    simp [runGrid, ← h]
  | cons ks rest ih =>
    have hscan : actionsScan (ks :: rest) s.prevKeys s.cooldown
        = gridActionOf ks s.prevKeys s.cooldown ::
          actionsScan rest ks
            (if (gridActionOf ks s.prevKeys s.cooldown).isSome then GRID_INPUT_COOLDOWN
             else max 0 (s.cooldown - dtQ)) := by
      simp [actionsScan]
    have hrun : runGrid cell walls b (ks :: rest) s
        = runGrid cell walls b rest (gridStep cell walls b ks s) := by
      simp [runGrid]
    have hprev : (gridStep cell walls b ks s).prevKeys = ks :=
      gridStep_prevKeys cell walls b ks s
    have hcool : (gridStep cell walls b ks s).cooldown
        = if (gridActionOf ks s.prevKeys s.cooldown).isSome then GRID_INPUT_COOLDOWN
          else max 0 (s.cooldown - dtQ) :=
      gridStep_cooldown cell walls b ks s
    have hface : (gridStep cell walls b ks s).tgtFacing
        = s.tgtFacing + turnDelta (gridActionOf ks s.prevKeys s.cooldown) :=
      gridStep_tgtFacing cell walls b ks s
    rw [hscan] at h
    rw [hrun]
    cases hact : gridActionOf ks s.prevKeys s.cooldown with
    | none =>
      rw [hact] at h
      simp only [List.filterMap_cons] at h
      have happ := ih (gridStep cell walls b ks s) n (by
        rw [hprev, hcool, hact]
        simpa using h)
      rw [happ, hface, hact]
      simp [turnDelta]
    | some act =>
      rw [hact] at h
      simp only [List.filterMap_cons] at h
      cases n with
      | zero =>
        simp [List.replicate] at h
      | succ n1 =>
        rw [List.replicate_succ] at h
        have hcons := List.cons_eq_cons.mp h
        have hacteq : act = GAction.turnRight := hcons.1
        have htail := hcons.2
        have happ := ih (gridStep cell walls b ks s) n1 (by
          rw [hprev, hcool, hact]
          simpa using htail)
        rw [happ, hface, hact, hacteq]
        simp only [turnDelta]
        push_cast
        ring

/-- While more cooldown remains than the trace can consume, no action
is selected along the trace. -/
theorem actionsScan_blocked (trace : List (List String)) (prev : List String) (cd : ℚ)
    (h : (trace.length : ℚ) * dtQ < cd) :
    ∀ o ∈ actionsScan trace prev cd, o = none := by
  induction trace generalizing prev cd with
  | nil =>
    simp [actionsScan]
  | cons ks rest ih =>
    have hdt : (0 : ℚ) < dtQ := by norm_num [dtQ]
    have hlen : ((rest.length : ℚ) + 1) * dtQ < cd := by
      have hc : ((ks :: rest).length : ℚ) = (rest.length : ℚ) + 1 := by
        push_cast [List.length_cons]
        ring
      rw [← hc]
      exact h
    have hrest0 : (0 : ℚ) ≤ (rest.length : ℚ) := Nat.cast_nonneg _
    have hcd : dtQ < cd := by nlinarith
    have hpos : 0 < cd - dtQ := by linarith
    have hact : gridActionOf ks prev cd = none := by
      unfold gridActionOf
      rw [if_neg]
      rw [max_le_iff]
      push_neg
      intro _
      linarith
    have hmax : max 0 (cd - dtQ) = cd - dtQ := max_eq_right hpos.le
    intro o ho
    rw [show actionsScan (ks :: rest) prev cd
        = gridActionOf ks prev cd ::
          actionsScan rest ks (if (gridActionOf ks prev cd).isSome then GRID_INPUT_COOLDOWN
            else max 0 (cd - dtQ)) by simp [actionsScan]] at ho
    rw [hact] at ho
    simp only [Option.isSome_none, Bool.false_eq_true, if_false, if_neg] at ho
    rcases List.mem_cons.mp ho with hh | hh
    · exact hh
    · refine ih ks (max 0 (cd - dtQ)) ?_ o ?_
      · rw [hmax]
        nlinarith
      · simpa using hh

/-- C10: in grid mode at most one discrete action is committed per
simulation step, selected by the fixed priority left turn, right turn,
forward, backward; a step whose cooldown has not expired commits
nothing; the step's target mutation is exactly the selected action's
effect; and a committed action restarts the cooldown so that no action
can be selected during the following five steps. -/
theorem grid_commit_priority_cooldown (cell : ℝ) (walls : List WallAABB)
    (b : Option RectBounds) (k : List String) (s : GridState) :
    (¬ max 0 (s.cooldown - dtQ) ≤ 0 → gridActionOf k s.prevKeys s.cooldown = none) ∧
    (max 0 (s.cooldown - dtQ) ≤ 0 → (keyLeft k && !keyLeft s.prevKeys) = true →
      gridActionOf k s.prevKeys s.cooldown = some GAction.turnLeft) ∧
    (max 0 (s.cooldown - dtQ) ≤ 0 → (keyLeft k && !keyLeft s.prevKeys) = false →
      (keyRight k && !keyRight s.prevKeys) = true →
      gridActionOf k s.prevKeys s.cooldown = some GAction.turnRight) ∧
    (max 0 (s.cooldown - dtQ) ≤ 0 → (keyLeft k && !keyLeft s.prevKeys) = false →
      (keyRight k && !keyRight s.prevKeys) = false →
      (keyUp k && !keyUp s.prevKeys) = true →
      gridActionOf k s.prevKeys s.cooldown = some GAction.stepForward) ∧
    (max 0 (s.cooldown - dtQ) ≤ 0 → (keyLeft k && !keyLeft s.prevKeys) = false →
      (keyRight k && !keyRight s.prevKeys) = false →
      (keyUp k && !keyUp s.prevKeys) = false →
      (keyDown k && !keyDown s.prevKeys) = true →
      gridActionOf k s.prevKeys s.cooldown = some GAction.stepBackward) ∧
    (max 0 (s.cooldown - dtQ) ≤ 0 → (keyLeft k && !keyLeft s.prevKeys) = false →
      (keyRight k && !keyRight s.prevKeys) = false →
      (keyUp k && !keyUp s.prevKeys) = false →
      (keyDown k && !keyDown s.prevKeys) = false →
      gridActionOf k s.prevKeys s.cooldown = none) ∧
    ((gridStep cell walls b k s).tgtFacing
      = s.tgtFacing + turnDelta (gridActionOf k s.prevKeys s.cooldown)) ∧
    (gridActionOf k s.prevKeys s.cooldown = none →
      (gridStep cell walls b k s).tgtX = s.tgtX ∧
      (gridStep cell walls b k s).tgtZ = s.tgtZ ∧
      (gridStep cell walls b k s).cooldown = max 0 (s.cooldown - dtQ)) ∧
    (gridActionOf k s.prevKeys s.cooldown = some GAction.turnLeft ∨
      gridActionOf k s.prevKeys s.cooldown = some GAction.turnRight →
      (gridStep cell walls b k s).tgtX = s.tgtX ∧
      (gridStep cell walls b k s).tgtZ = s.tgtZ) ∧
    ((gridActionOf k s.prevKeys s.cooldown).isSome = true →
      (gridStep cell walls b k s).cooldown = GRID_INPUT_COOLDOWN) ∧
    (∀ trace : List (List String), trace.length ≤ 5 →
      ∀ o ∈ actionsScan trace k GRID_INPUT_COOLDOWN, o = none) := by
  refine ⟨?_, ?_, ?_, ?_, ?_, ?_, gridStep_tgtFacing cell walls b k s, ?_, ?_, ?_, ?_⟩
  · intro hnr
    unfold gridActionOf
    rw [if_neg hnr]
  · intro hr hl
    unfold gridActionOf
    rw [if_pos hr, if_pos hl]
  · intro hr hl hri
    unfold gridActionOf
    rw [if_pos hr, if_neg (by simp [hl]), if_pos hri]
  · intro hr hl hri hfw
    unfold gridActionOf
    rw [if_pos hr, if_neg (by simp [hl]), if_neg (by simp [hri]), if_pos hfw]
  · intro hr hl hri hfw hbw
    unfold gridActionOf
    rw [if_pos hr, if_neg (by simp [hl]), if_neg (by simp [hri]),
      if_neg (by simp [hfw]), if_pos hbw]
  · intro hr hl hri hfw hbw
    unfold gridActionOf
    rw [if_pos hr, if_neg (by simp [hl]), if_neg (by simp [hri]),
      if_neg (by simp [hfw]), if_neg (by simp [hbw])]
  · intro hnone
    refine ⟨?_, ?_, ?_⟩
    · revert hnone
      simp only [gridStep, gridActionOf]
      split_ifs <;> simp_all
    · revert hnone
      simp only [gridStep, gridActionOf]
      split_ifs <;> simp_all
    · rw [gridStep_cooldown cell walls b k s, hnone]
      simp
  · intro hturn
    rcases hturn with hturn | hturn <;>
    · revert hturn
      simp only [gridStep, gridActionOf]
      split_ifs <;> simp_all
  · intro hsome
    rw [gridStep_cooldown cell walls b k s, if_pos hsome]
  · intro trace hlen o ho
    refine actionsScan_blocked trace k GRID_INPUT_COOLDOWN ?_ o ho
    have hc : (trace.length : ℚ) ≤ 5 := by exact_mod_cast hlen
    have hdq : dtQ = 1 / 24 := rfl
    rw [hdq]
    norm_num [GRID_INPUT_COOLDOWN]
    linarith

/-- C7: four committed right turns advance the target facing by
exactly `2π`, the same direction as the original facing as an angle;
the displayed facing is smoothed by one shortest-arc interpolation step
per simulation step, its delta to the target decays geometrically by
`exp (-1/2)` per step (hence converges to the target), and the total
smoothing motion never exceeds the initial delta, which is at most `π`
— no overshoot beyond one wrap cycle. -/
theorem grid_turn_facing_convergence (cell : ℝ) (walls : List WallAABB)
    (b : Option RectBounds) (trace : List (List String)) (s : GridState)
    (t c : ℝ) (n : ℕ) :
    ((actionsScan trace s.prevKeys s.cooldown).filterMap id
        = List.replicate 4 GAction.turnRight →
      (runGrid cell walls b trace s).tgtFacing = s.tgtFacing + 2 * Real.pi ∧
      ((runGrid cell walls b trace s).tgtFacing : Real.Angle)
        = (s.tgtFacing : Real.Angle)) ∧
    ((gridStep cell walls b [] s).curFacing = faceLerp s.tgtFacing s.curFacing ∧
      (gridStep cell walls b [] s).tgtFacing = s.tgtFacing) ∧
    (shortestAngleDelta (faceLerp t c) t
      = Real.exp (-(1 / 2) : ℝ) * shortestAngleDelta c t) ∧
    (shortestAngleDelta (faceIter t n c) t
      = Real.exp (-(1 / 2) : ℝ) ^ n * shortestAngleDelta c t) ∧
    (|shortestAngleDelta (faceIter t n c) t|
      ≤ Real.pi * Real.exp (-(1 / 2) : ℝ) ^ n) ∧
    (|faceIter t n c - c| ≤ |shortestAngleDelta c t| ∧
      |shortestAngleDelta c t| ≤ Real.pi) ∧
    Filter.Tendsto (fun j => shortestAngleDelta (faceIter t j c) t)
      Filter.atTop (nhds 0) := by
  have hr0 : (0 : ℝ) < Real.exp (-(1 / 2) : ℝ) := Real.exp_pos _
  have hrn0 : (0 : ℝ) ≤ Real.exp (-(1 / 2) : ℝ) ^ n := pow_nonneg hr0.le n
  have hrn1 : Real.exp (-(1 / 2) : ℝ) ^ n ≤ 1 :=
    pow_le_one₀ hr0.le (Real.exp_lt_one_iff.mpr (by norm_num)).le
  have hsad := (shortestAngleDelta_spec c t).1
  have hsadabs : |shortestAngleDelta c t| ≤ Real.pi :=
    abs_le.mpr ⟨by linarith [hsad.1], hsad.2⟩
  refine ⟨?_, gridStep_noKeys cell walls b s, faceLerp_sad t c, faceIter_sad t c n,
    ?_, ⟨?_, hsadabs⟩, faceIter_tendsto t c⟩
  · intro h
    have hfour := runGrid_tgtFacing_replicate cell walls b trace s 4 h
    have h2pi : ((4 : ℕ) : ℝ) * (Real.pi / 2) = 2 * Real.pi := by
      push_cast
      ring
    rw [h2pi] at hfour
    refine ⟨hfour, ?_⟩
    rw [hfour, Real.Angle.coe_add, Real.Angle.coe_two_pi, add_zero]
  · rw [faceIter_sad, abs_mul, abs_pow, abs_of_pos hr0]
    calc Real.exp (-(1 / 2) : ℝ) ^ n * |shortestAngleDelta c t|
        ≤ Real.exp (-(1 / 2) : ℝ) ^ n * Real.pi := mul_le_mul_of_nonneg_left hsadabs hrn0
      _ = Real.pi * Real.exp (-(1 / 2) : ℝ) ^ n := by ring
  · have hmono := faceIter_no_overshoot t c n
    have habs : 0 ≤ |shortestAngleDelta c t| := abs_nonneg _
    nlinarith

/-- Concrete instantiation of the four-right-turn property along an
explicit 19-step key trace from the start state. -/
theorem grid_turn_facing_convergence_witness :
    (runGrid 1 [] none turnTrace gridStart).tgtFacing
      = gridStart.tgtFacing + 2 * Real.pi := by
  apply ((grid_turn_facing_convergence 1 [] none turnTrace gridStart 0 0 0).1 ?_).1
  have kR : keyRight pressRight = true := by decide
  have kRn : keyRight ([] : List String) = false := by decide
  have kL : keyLeft pressRight = false := by decide
  have kLn : keyLeft ([] : List String) = false := by decide
  have kU : keyUp pressRight = false := by decide
  have kUn : keyUp ([] : List String) = false := by decide
  have kD : keyDown pressRight = false := by decide
  have kDn : keyDown ([] : List String) = false := by decide
  norm_num [turnTrace, gridStart, actionsScan, gridActionOf, kR, kRn, kL, kLn,
    kU, kUn, kD, kDn, max_def, dtQ, GRID_INPUT_COOLDOWN, List.filterMap,
    List.replicate]

/-- Concrete instantiation of the commit priority: with left and right
edges rising in the same ready step, the left turn wins. -/
theorem grid_commit_priority_cooldown_witness :
    gridActionOf [codeArrowLeft, codeArrowRight] gridStart.prevKeys gridStart.cooldown
      = some GAction.turnLeft :=
  (grid_commit_priority_cooldown 1 [] none [codeArrowLeft, codeArrowRight] gridStart).2.1
    (by norm_num [gridStart, dtQ]) (by decide)

end MapHack
